import Mathlib

/-!
Verification of the PR maintainability checker (`src/app.js`).

Text is modelled as `List Char`.  The three metric extractors
(`countLines`, `countMethods`, `findTodos`), the per-file aggregation of
the `pull_request` handler (`processFile`, `analyzeFiles`) and the
comment-body composition (`composeBody`) are shallow embeddings of the
JavaScript source.  JavaScript regular-expression matching is embedded by
dedicated deterministic matchers that reproduce the left-to-right global
scan, greedy repetition together with the only backtracking point that
the concrete patterns can exercise (the `\(.*\)` group), and the
`g`, `m` and `i` flags used by the source.
-/

set_option maxRecDepth 100000

/-- Convert a string literal to the `List Char` text model. -/
def chars (s : String) : List Char := s.toList

/-- JavaScript `\s` on the ASCII range (space, tab, LF, CR, VT, FF). -/
def isWs (c : Char) : Bool :=
  c == ' ' || c == '\t' || c == '\n' || c == '\r' || c == Char.ofNat 11 || c == Char.ofNat 12

/-- JavaScript `\w`: ASCII letters, digits and underscore. -/
def isWordChar (c : Char) : Bool := c.isAlpha || c.isDigit || c == '_'

/-- JavaScript `.` without the `s` flag: anything but a line terminator. -/
def isDot (c : Char) : Bool := !(c == '\n' || c == '\r')

/-- Line terminators recognised by the JavaScript `m` flag (ASCII range). -/
def isNl (c : Char) : Bool := c == '\n' || c == '\r'

/-- `startsWithL s p` holds when `p` is an initial segment of `s`. -/
def startsWithL : List Char → List Char → Bool
  | _, [] => true
  | [], _ :: _ => false
  | c :: cs, p :: ps => c == p && startsWithL cs ps

/-- JavaScript `String.prototype.endsWith` on the text model. -/
def endsWithL (s pat : List Char) : Bool := startsWithL s.reverse pat.reverse

/-- `containsSub s p` holds when `p` occurs contiguously inside `s`. -/
def containsSub : List Char → List Char → Bool
  | [], p => startsWithL [] p
  | c :: t, p => startsWithL (c :: t) p || containsSub t p

/-- JavaScript `String.prototype.trim` on the text model. -/
def trimL (s : List Char) : List Char :=
  ((s.dropWhile isWs).reverse.dropWhile isWs).reverse

/-- JavaScript `String.prototype.split('\n')` on the text model. -/
def splitNl : List Char → List (List Char)
  | [] => [[]]
  | c :: t =>
    if c == '\n' then [] :: splitNl t
    else
      match splitNl t with
      | [] => [[c]]
      | h :: r => (c :: h) :: r

/-- Decimal rendering of a number, as JavaScript template interpolation does. -/
def natChars (n : Nat) : List Char := (Nat.repr n).toList

/-! ### `findTodos` (src/app.js:237-241)

The pattern is `/(\/\/|#|\*)\s*(TODO|FIXME):?\s*(.*)/gi`.  `matchTodoAt`
attempts the pattern at the head of a suffix; since `\s` and the keyword
heads are disjoint and `(.*)` always succeeds, greedy maximal munch is
exactly the JavaScript backtracking semantics for this pattern. -/

/-- The leader alternation `(\/\/|#|\*)`, tried in source order. -/
def todoLeader : List Char → Option (List Char × List Char)
  | '/' :: '/' :: rest => some (chars "//", rest)
  | '#' :: rest => some (chars "#", rest)
  | '*' :: rest => some (chars "*", rest)
  | _ => none

/-- Case-insensitive literal match (the `i` flag); `pat` is lowercase. -/
def matchCI : List Char → List Char → Option (List Char × List Char)
  | [], s => some ([], s)
  | _ :: _, [] => none
  | p :: ps, c :: cs =>
    if c.toLower == p then
      match matchCI ps cs with
      | some (m, r) => some (c :: m, r)
      | none => none
    else none

/-- The keyword alternation `(TODO|FIXME)`, tried in source order. -/
def kwMatch (s : List Char) : Option (List Char × List Char) :=
  match matchCI (chars "todo") s with
  | some x => some x
  | none => matchCI (chars "fixme") s

/-- The trailing `\s*(.*)` of the TODO pattern: consumed text and rest. -/
def todoTail (r : List Char) : List Char × List Char :=
  (r.takeWhile isWs ++ (r.dropWhile isWs).takeWhile isDot,
   (r.dropWhile isWs).dropWhile isDot)

/-- Attempt the full TODO/FIXME pattern at the head of `s`; returns the
matched fragment and the remaining text. -/
def matchTodoAt (s : List Char) : Option (List Char × List Char) :=
  match todoLeader s with
  | none => none
  | some (l, r1) =>
    match kwMatch (r1.dropWhile isWs) with
    | none => none
    | some (kw, r3) =>
      match r3 with
      | ':' :: r4 =>
        some (l ++ r1.takeWhile isWs ++ kw ++ ':' :: (todoTail r4).1, (todoTail r4).2)
      | _ =>
        some (l ++ r1.takeWhile isWs ++ kw ++ (todoTail r3).1, (todoTail r3).2)

/-- Global scan of `matchAll`: try the pattern at every position from the
left, resuming after the end of each match.  `fuel` bounds the recursion
and is instantiated with the text length. -/
def findTodosGo : Nat → List Char → List (List Char)
  | 0, _ => []
  | _ + 1, [] => []
  | fuel + 1, c :: t =>
    match matchTodoAt (c :: t) with
    | some (m, rest) => trimL m :: findTodosGo fuel rest
    | none => findTodosGo fuel t

/-- `findTodos` from src/app.js:237-241. -/
def findTodos (s : List Char) : List (List Char) := findTodosGo s.length s

/-- Instrumented variant of the scan recording the offset of the first
character of each match. -/
def findTodosPosGo : Nat → Nat → List Char → List (Nat × List Char)
  | 0, _, _ => []
  | _ + 1, _, [] => []
  | fuel + 1, off, c :: t =>
    match matchTodoAt (c :: t) with
    | some (m, rest) => (off, trimL m) :: findTodosPosGo fuel (off + m.length) rest
    | none => findTodosPosGo fuel (off + 1) t

/-- Offsets and fragments of the scan underlying `findTodos`. -/
def findTodosPos (s : List Char) : List (Nat × List Char) := findTodosPosGo s.length 0 s

/-- No suffix of the text matches the TODO/FIXME pattern. -/
def noTodoMatch : List Char → Bool
  | [] => true
  | c :: t => (matchTodoAt (c :: t)).isNone && noTodoMatch t

/-! ### `countLines` (src/app.js:198-210) -/

/-- The filter predicate of `countLines`: the trimmed line is non-empty
and starts with none of the excluded prefixes. -/
def countedLine (line : List Char) : Bool :=
  !(trimL line).isEmpty &&
    !startsWithL (trimL line) (chars "//") &&
    !startsWithL (trimL line) (chars "/*") &&
    !startsWithL (trimL line) (chars "*") &&
    !startsWithL (trimL line) (chars "import ") &&
    !startsWithL (trimL line) (chars "export ")

/-- `countLines` from src/app.js:198-210 (the spec calls it `countLoc`). -/
def countLines (content : List Char) : Nat :=
  ((splitNl content).filter countedLine).length

/-- C4's wording of the line filter: after trimming surrounding
whitespace the line is non-empty and does not start with `//`, `/*`,
`*`, `import ` or `export `. -/
def specLocLine (line : List Char) : Bool :=
  !(trimL line).isEmpty &&
    !startsWithL (trimL line) (chars "//") &&
    !startsWithL (trimL line) (chars "/*") &&
    !startsWithL (trimL line) (chars "*") &&
    !startsWithL (trimL line) (chars "import ") &&
    !startsWithL (trimL line) (chars "export ")

/-! ### `countMethods` (src/app.js:218-229)

Three regexes are counted independently and the counts added:
`functionRegex  = /(?:function\s+\w+|\w+\s*=\s*\(.*\)\s*=>|\w+\s*:\s*function|^\s*\w+\(.*\)\s*\x7b)/gm`,
`arrowFunctionRegex = /(?:const|let|var)\s+\w+\s*=\s*\(.*\)\s*=>/gm`,
`regularFunctionRegex = /function\s+\w+\s*\(.*\)\s*\x7b/gm`.

For these patterns `\w`/`\s` runs followed by a non-word, non-space
literal never need backtracking, so maximal munch is faithful; the only
genuine backtracking point is `\(.*\)`, where the greedy `.*` makes the
engine pick the rightmost `)` whose continuation succeeds
(`parenSearch`). -/

/-- Case-sensitive literal match. -/
def litM : List Char → List Char → Option (List Char × List Char)
  | [], s => some ([], s)
  | _ :: _, [] => none
  | p :: ps, c :: cs =>
    if c == p then
      match litM ps cs with
      | some (m, r) => some (c :: m, r)
      | none => none
    else none

/-- Sequence two matchers, concatenating the consumed text. -/
def andThen (r : Option (List Char × List Char))
    (k : List Char → Option (List Char × List Char)) : Option (List Char × List Char) :=
  match r with
  | none => none
  | some (m1, rest1) =>
    match k rest1 with
    | none => none
    | some (m2, rest2) => some (m1 ++ m2, rest2)

/-- `\s*`: always succeeds, consuming the maximal whitespace run. -/
def wsStar (s : List Char) : Option (List Char × List Char) :=
  some (s.takeWhile isWs, s.dropWhile isWs)

/-- `\s+`: at least one whitespace character. -/
def wsPlus (s : List Char) : Option (List Char × List Char) :=
  if (s.takeWhile isWs).isEmpty then none else some (s.takeWhile isWs, s.dropWhile isWs)

/-- `\w+`: at least one word character. -/
def wordPlus (s : List Char) : Option (List Char × List Char) :=
  if (s.takeWhile isWordChar).isEmpty then none
  else some (s.takeWhile isWordChar, s.dropWhile isWordChar)

/-- Backtracking search for `\)` inside the run matched by a greedy `.*`:
the rightmost `)` whose continuation succeeds wins. -/
def parenSearch (cont : List Char → Option (List Char × List Char)) :
    List Char → List Char → Option (List Char × List Char)
  | [], _ => none
  | c :: run, rest =>
    match parenSearch cont run rest with
    | some (m, r) => some (c :: m, r)
    | none =>
      if c == ')' then
        match cont (run ++ rest) with
        | some (m, r) => some (c :: m, r)
        | none => none
      else none

/-- `.*\)` followed by `cont`: `.` cannot cross a line terminator. -/
def dotParen (cont : List Char → Option (List Char × List Char))
    (s : List Char) : Option (List Char × List Char) :=
  parenSearch cont (s.takeWhile isDot) (s.dropWhile isDot)

/-- Continuation `\s*=>`. -/
def contArrow (s : List Char) : Option (List Char × List Char) :=
  andThen (wsStar s) (litM (chars "=>"))

/-- Continuation `\s*\x7b`. -/
def contBrace (s : List Char) : Option (List Char × List Char) :=
  andThen (wsStar s) (litM (chars "\x7b"))

/-- Branch `function\s+\w+` of `functionRegex`. -/
def fnBranch1 (s : List Char) : Option (List Char × List Char) :=
  andThen (litM (chars "function") s) (fun r => andThen (wsPlus r) wordPlus)

/-- Branch `\w+\s*=\s*\(.*\)\s*=>` of `functionRegex`. -/
def fnBranch2 (s : List Char) : Option (List Char × List Char) :=
  andThen (wordPlus s) (fun r =>
    andThen (wsStar r) (fun r =>
      andThen (litM (chars "=") r) (fun r =>
        andThen (wsStar r) (fun r =>
          andThen (litM (chars "(") r) (dotParen contArrow)))))

/-- Branch `\w+\s*:\s*function` of `functionRegex`. -/
def fnBranch3 (s : List Char) : Option (List Char × List Char) :=
  andThen (wordPlus s) (fun r =>
    andThen (wsStar r) (fun r =>
      andThen (litM (chars ":") r) (fun r =>
        andThen (wsStar r) (litM (chars "function")))))

/-- Branch `^\s*\w+\(.*\)\s*\x7b` of `functionRegex` (without the anchor). -/
def fnBranch4 (s : List Char) : Option (List Char × List Char) :=
  andThen (wsStar s) (fun r =>
    andThen (wordPlus r) (fun r =>
      andThen (litM (chars "(") r) (dotParen contBrace)))

/-- `functionRegex` attempted at one position; `atLS` says whether the
position is at the start of a line (for the `^` under the `m` flag). -/
def fnMatchAt (atLS : Bool) (s : List Char) : Option (List Char × List Char) :=
  match fnBranch1 s with
  | some x => some x
  | none =>
    match fnBranch2 s with
    | some x => some x
    | none =>
      match fnBranch3 s with
      | some x => some x
      | none => if atLS then fnBranch4 s else none

/-- `arrowFunctionRegex` attempted at one position. -/
def arrowMatchAt (s : List Char) : Option (List Char × List Char) :=
  andThen
    (match litM (chars "const") s with
     | some x => some x
     | none =>
       match litM (chars "let") s with
       | some x => some x
       | none => litM (chars "var") s)
    (fun r =>
      andThen (wsPlus r) (fun r =>
        andThen (wordPlus r) (fun r =>
          andThen (wsStar r) (fun r =>
            andThen (litM (chars "=") r) (fun r =>
              andThen (wsStar r) (fun r =>
                andThen (litM (chars "(") r) (dotParen contArrow)))))))

/-- `regularFunctionRegex` attempted at one position. -/
def regularMatchAt (s : List Char) : Option (List Char × List Char) :=
  andThen (litM (chars "function") s) (fun r =>
    andThen (wsPlus r) (fun r =>
      andThen (wordPlus r) (fun r =>
        andThen (wsStar r) (fun r =>
          andThen (litM (chars "(") r) (dotParen contBrace)))))

/-- Last character of a match, to know whether the resume position is at
a line start. -/
def lastIsNl (l : List Char) (dflt : Bool) : Bool :=
  match l.getLast? with
  | some c => isNl c
  | none => dflt

/-- Global `match` count: scan every position left to right, consuming
each match.  `fuel` is instantiated with the text length. -/
def scanCount (m : Bool → List Char → Option (List Char × List Char)) :
    Nat → Bool → List Char → Nat
  | 0, _, _ => 0
  | _ + 1, _, [] => 0
  | fuel + 1, atLS, c :: t =>
    match m atLS (c :: t) with
    | some (mt, rest) => 1 + scanCount m fuel (lastIsNl mt (isNl c)) rest
    | none => scanCount m fuel (isNl c) t

/-- Number of `functionRegex` matches. -/
def fnCount (content : List Char) : Nat :=
  scanCount fnMatchAt content.length true content

/-- Number of `arrowFunctionRegex` matches. -/
def arrowCount (content : List Char) : Nat :=
  scanCount (fun _ s => arrowMatchAt s) content.length true content

/-- Number of `regularFunctionRegex` matches. -/
def regularCount (content : List Char) : Nat :=
  scanCount (fun _ s => regularMatchAt s) content.length true content

/-- `countMethods` from src/app.js:218-229. -/
def countMethods (content : List Char) : Nat :=
  fnCount content + arrowCount content + regularCount content

/-- None of the three method patterns matches at this position. -/
def noMethodAt (s : List Char) : Bool :=
  (fnMatchAt true s).isNone && (fnMatchAt false s).isNone &&
    (arrowMatchAt s).isNone && (regularMatchAt s).isNone

/-- No suffix of the text matches any of the three method patterns. -/
def noMethodMatch : List Char → Bool
  | [] => true
  | c :: t => noMethodAt (c :: t) && noMethodMatch t

/-! ### Per-file aggregation of the `pull_request` handler (src/app.js:76-147)

Content fetching (`octokit.rest.repos.getContent` plus base64 decoding)
is modelled as a capability `fetch : List Char → Option (List Char)`;
`none` models the per-file fetch failure that the handler catches and
logs before continuing with the next file. -/

/-- One entry of of the changed-file list: filename and optional patch. -/
structure ChangedFile where
  filename : List Char
  patch : Option (List Char)
deriving DecidableEq

/-- Findings accumulated across the changed files of one pull request. -/
structure PRFindings where
  issues : List (List Char)
  todoComments : List (List Char)
  pkgJsonModified : Bool
  pkgLockModified : Bool
deriving DecidableEq

/-- JavaScript truthiness of `file.patch` (absent or empty is falsy). -/
def truthyPatch : Option (List Char) → Bool
  | none => false
  | some p => !p.isEmpty

/-- The eligibility filter of src/app.js:86-91: a `.js`/`.tsx`/`.ts`
extension and a truthy patch. -/
def eligibleFile (f : ChangedFile) : Bool :=
  (endsWithL f.filename (chars ".js") || endsWithL f.filename (chars ".tsx") ||
      endsWithL f.filename (chars ".ts")) &&
    truthyPatch f.patch

/-- The issue line pushed at src/app.js:127. -/
def locIssue (name : List Char) (loc : Nat) : List Char :=
  chars "- `" ++ name ++ chars "`: LOC = " ++ natChars loc ++ chars " 🔥"

/-- The issue line pushed at src/app.js:131. -/
def nomIssue (name : List Char) (nom : Nat) : List Char :=
  chars "- `" ++ name ++ chars "`: Method Count = " ++ natChars nom ++ chars " 🧠"

/-- The todo line pushed at src/app.js:136. -/
def todoEntry (name : List Char) (todo : List Char) : List Char :=
  chars "- `" ++ name ++ chars "`: " ++ todo

/-- The analysis part of the loop body (src/app.js:86-142): eligible
files are fetched and their metrics turned into issue and todo lines; a
fetch failure leaves the accumulator unchanged. -/
def analyzeStep (fetch : List Char → Option (List Char)) (acc : PRFindings)
    (file : ChangedFile) : PRFindings :=
  if eligibleFile file then
    match fetch file.filename with
    | some content =>
      let loc := countLines content
      let nom := countMethods content
      let todos := findTodos content
      let issues1 := if 200 < loc then acc.issues ++ [locIssue file.filename loc] else acc.issues
      let issues2 := if 8 < nom then issues1 ++ [nomIssue file.filename nom] else issues1
      let todos1 :=
        if todos.isEmpty then acc.todoComments
        else acc.todoComments ++ todos.map (todoEntry file.filename)
      { acc with issues := issues2, todoComments := todos1 }
    | none => acc
  else acc

/-- The full loop body (src/app.js:82-147): analysis followed by the
patch-independent manifest/lockfile bookkeeping of lines 144-146. -/
def processFile (fetch : List Char → Option (List Char)) (acc : PRFindings)
    (file : ChangedFile) : PRFindings :=
  let acc1 := analyzeStep fetch acc file
  { acc1 with
    pkgJsonModified :=
      if file.filename == chars "package.json" then true else acc1.pkgJsonModified
    pkgLockModified :=
      if file.filename == chars "package-lock.json" then true else acc1.pkgLockModified }

/-- Initial accumulator (src/app.js:76-79). -/
def emptyFindings : PRFindings := ⟨[], [], false, false⟩

/-- Aggregation over the changed-file list of one pull request. -/
def analyzeFiles (fetch : List Char → Option (List Char))
    (files : List ChangedFile) : PRFindings :=
  files.foldl (processFile fetch) emptyFindings

/-! ### Comment composition (src/app.js:150-168) -/

/-- Title line of the comment (src/app.js:150). -/
def titleLine : List Char := chars "## 🤖 PR Maintainability Check\n\n"

/-- Heading of the issues section (src/app.js:153). -/
def issuesHeading : List Char := chars "### ⚠️ Issues Detected:\n"

/-- Affirmation line used when no issue was found (src/app.js:155). -/
def noIssuesLine : List Char := chars "✅ No major maintainability issues found.\n\n"

/-- Lockfile warning line (src/app.js:158-161). -/
def warnLine : List Char :=
  chars "⚠️ `package.json` was modified but `package-lock.json` was not. Ensure lockfile is up to date!\n\n"

/-- Heading of the TODO section (src/app.js:165). -/
def todoHeading : List Char := chars "### 📝 TODO / FIXME Found:\n"

/-- Reminder line closing the TODO section (src/app.js:167). -/
def todoReminder : List Char := chars "\nPlease address these before merging.\n"

/-- Issues block or the no-issues affirmation (src/app.js:152-156). -/
def issuesSection (f : PRFindings) : List Char :=
  if f.issues.isEmpty then noIssuesLine
  else issuesHeading ++ List.intercalate (chars "\n") f.issues ++ chars "\n\n"

/-- Lockfile warning block (src/app.js:158-161). -/
def warnSection (f : PRFindings) : List Char :=
  if f.pkgJsonModified && !f.pkgLockModified then warnLine else []

/-- TODO block (src/app.js:163-168). -/
def todoSection (f : PRFindings) : List Char :=
  if f.todoComments.isEmpty then []
  else todoHeading ++ List.intercalate (chars "\n") f.todoComments ++ todoReminder

/-- The comment body, assembled by the sequential appends of
src/app.js:150-168. -/
def composeBody (f : PRFindings) : List Char :=
  titleLine ++ issuesSection f ++ warnSection f ++ todoSection f

/-- The changed-file list of C1's scenario. -/
def c1Files : List ChangedFile :=
  [⟨chars "a.js", some (chars "@@ -1 +1 @@")⟩,
   ⟨chars "b.png", some (chars "@@ -1 +1 @@")⟩,
   ⟨chars "package.json", some (chars "@@ -1 +1 @@")⟩,
   ⟨chars "package-lock.json", none⟩]

/-- A content fetcher answering every path with empty content. -/
def c1Fetch : List Char → Option (List Char) := fun _ => some []

/-! ### Spec-side characterisation of a TODO fragment (for C2) -/

/-- A comment leader as the spec describes it: `//`, `#` or `*`. -/
def leaderOk (l : List Char) : Prop :=
  l = chars "//" ∨ l = chars "#" ∨ l = chars "*"

/-- The keyword, matched case-insensitively: `TODO` or `FIXME`. -/
def kwOk (kw : List Char) : Prop :=
  kw.map Char.toLower = chars "todo" ∨ kw.map Char.toLower = chars "fixme"

/-- Shape of a raw matched fragment as the spec describes it: a comment
leader, whitespace, `TODO`/`FIXME` case-insensitively, an optional
colon, whitespace, and trailing text free of line terminators. -/
def TodoFrag (raw : List Char) : Prop :=
  ∃ l w1 kw c w2 tl,
    raw = l ++ w1 ++ kw ++ c ++ w2 ++ tl ∧ leaderOk l ∧ w1.all isWs = true ∧
      kwOk kw ∧ (c = [] ∨ c = [':']) ∧ w2.all isWs = true ∧ tl.all isDot = true

/-! ### Concrete data for witnesses -/

/-- A 250-line file with exactly nine method-pattern matches. -/
def bigContent : List Char :=
  List.intercalate (chars "\n")
    (List.replicate 241 (chars "x;") ++ List.replicate 9 (chars "a: function"))

/-- A fetcher that fails on `bad.js` and succeeds elsewhere. -/
def c8Fetch : List Char → Option (List Char) :=
  fun n => if n == chars "bad.js" then none else some (chars "x = 1")

/-! ## Helper lemmas -/

theorem startsWithL_append_self (w b : List Char) : startsWithL (w ++ b) w = true := by
  induction w with
  | nil => cases b <;> rfl
  | cons c cs ih => simp [startsWithL, ih]

theorem containsSub_nil_pat (s : List Char) : containsSub s [] = true := by
  cases s with
  | nil => rfl
  | cons c t => simp [containsSub, startsWithL]

theorem containsSub_self_append (w b : List Char) : containsSub (w ++ b) w = true := by
  cases w with
  | nil => exact containsSub_nil_pat b
  | cons c cs =>
    rw [show containsSub ((c :: cs) ++ b) (c :: cs) =
          (startsWithL ((c :: cs) ++ b) (c :: cs) || containsSub (cs ++ b) (c :: cs)) from rfl,
      startsWithL_append_self]
    rfl

theorem containsSub_append_left (a s p : List Char) (h : containsSub s p = true) :
    containsSub (a ++ s) p = true := by
  induction a with
  | nil => simpa using h
  | cons c cs ih => simp [containsSub, ih]

theorem containsSub_cons (c : Char) (t p : List Char) (h : containsSub t p = true) :
    containsSub (c :: t) p = true := by
  simp [containsSub, h]

/-! ## C3 -/

/-- C3: `countMethods` is the plain sum of the match counts of the three
pattern families with no de-duplication; on `const f = () => \x7b\x7d`
the construct matches both the broad function-like family and the
declaration-keyword arrow family, so it contributes 2. -/
theorem countMethods_sums_families (T : List Char) :
    countMethods T = fnCount T + arrowCount T + regularCount T ∧
    fnCount (chars "const f = () => \x7b\x7d") = 1 ∧
    arrowCount (chars "const f = () => \x7b\x7d") = 1 ∧
    regularCount (chars "const f = () => \x7b\x7d") = 0 ∧
    2 ≤ countMethods (chars "const f = () => \x7b\x7d") :=
  ⟨rfl, by decide, by decide, by decide, by decide⟩

/-! ## C7 -/

/-- C7: on the empty findings the composed body is the title followed by
the no-issues affirmation; it contains the affirmation and contains
neither the issues heading, nor the lockfile warning line, nor any part
of the TODO section. -/
theorem composeBody_empty_findings :
    composeBody emptyFindings = titleLine ++ noIssuesLine ∧
    containsSub (composeBody emptyFindings) noIssuesLine = true ∧
    containsSub (composeBody emptyFindings) issuesHeading = false ∧
    containsSub (composeBody emptyFindings) warnLine = false ∧
    containsSub (composeBody emptyFindings) todoHeading = false ∧
    containsSub (composeBody emptyFindings) todoReminder = false := by
  decide

/-! ## C10 -/

/-- C10: `findTodos` can return a fragment spanning two physical lines:
with the leader `//` at the end of one line and `TODO` at the start of
the next, the single returned fragment contains the line break, while no
individual line of the text produces a match on its own. -/
theorem findTodos_multiline_fragment :
    findTodos (chars "//\nTODO: fix") = [chars "//\nTODO: fix"] ∧
    '\n' ∈ chars "//\nTODO: fix" ∧
    (splitNl (chars "//\nTODO: fix")).map findTodos = [[], []] := by
  decide

/-! ## C1 -/

theorem analyzeStep_pkgJson (fetch : List Char → Option (List Char)) (acc : PRFindings)
    (file : ChangedFile) : (analyzeStep fetch acc file).pkgJsonModified = acc.pkgJsonModified := by
  unfold analyzeStep
  split
  · split <;> rfl
  · rfl

theorem analyzeStep_pkgLock (fetch : List Char → Option (List Char)) (acc : PRFindings)
    (file : ChangedFile) : (analyzeStep fetch acc file).pkgLockModified = acc.pkgLockModified := by
  unfold analyzeStep
  split
  · split <;> rfl
  · rfl

theorem processFile_pkgJson (fetch : List Char → Option (List Char)) (acc : PRFindings)
    (file : ChangedFile) :
    (processFile fetch acc file).pkgJsonModified =
      (acc.pkgJsonModified || (file.filename == chars "package.json")) := by
  cases h : file.filename == chars "package.json" <;>
    simp [processFile, h, analyzeStep_pkgJson]

theorem processFile_pkgLock (fetch : List Char → Option (List Char)) (acc : PRFindings)
    (file : ChangedFile) :
    (processFile fetch acc file).pkgLockModified =
      (acc.pkgLockModified || (file.filename == chars "package-lock.json")) := by
  cases h : file.filename == chars "package-lock.json" <;>
    simp [processFile, h, analyzeStep_pkgLock]

theorem foldl_pkgFlags (fetch : List Char → Option (List Char)) (files : List ChangedFile)
    (acc : PRFindings) :
    ((files.foldl (processFile fetch) acc).pkgJsonModified =
      (acc.pkgJsonModified || files.any (fun f => f.filename == chars "package.json"))) ∧
    ((files.foldl (processFile fetch) acc).pkgLockModified =
      (acc.pkgLockModified || files.any (fun f => f.filename == chars "package-lock.json"))) := by
  induction files generalizing acc with
  | nil => simp
  | cons x xs ih =>
    simp only [List.foldl_cons, List.any_cons]
    constructor
    · rw [(ih _).1, processFile_pkgJson, Bool.or_assoc]
    · rw [(ih _).2, processFile_pkgLock, Bool.or_assoc]

/-- C1 counterexample: on the claimed changed-file list the aggregation
sets `lockfileChanged` to `true`, not `false` — the bookkeeping of
src/app.js:146 keys on the filename alone, independent of the patch. -/
theorem analyzeFiles_c1_lock_not_false :
    ¬((analyzeFiles c1Fetch c1Files).pkgLockModified = false) := by decide

/-- C1 (amended): on that list only `a.js` passes the analysis filter,
and the aggregation sets `manifestChanged = true` and
`lockfileChanged = true`; in general either flag is set exactly when
some changed file has the corresponding filename, regardless of
extension or patch presence. -/
theorem analyzeFiles_c1_bookkeeping :
    (c1Files.filter eligibleFile).map (fun f => f.filename) = [chars "a.js"] ∧
    (analyzeFiles c1Fetch c1Files).pkgJsonModified = true ∧
    (analyzeFiles c1Fetch c1Files).pkgLockModified = true ∧
    (∀ fetch files,
      (analyzeFiles fetch files).pkgJsonModified =
        files.any (fun f => f.filename == chars "package.json") ∧
      (analyzeFiles fetch files).pkgLockModified =
        files.any (fun f => f.filename == chars "package-lock.json")) := by
  refine ⟨by decide, by decide, by decide, fun fetch files => ?_⟩
  have h := foldl_pkgFlags fetch files emptyFindings
  simpa [analyzeFiles, emptyFindings] using h

/-! ## C6 -/

/-- C6: the composer emits the lockfile warning exactly when
`manifestChanged` holds and `lockfileChanged` does not: in that case the
warning section is the warning line and the line occurs in the composed
body; otherwise the warning section is empty and the body is just title,
issues section and TODO section. -/
theorem warnSection_iff (f : PRFindings) :
    ((f.pkgJsonModified && !f.pkgLockModified) = true →
      warnSection f = warnLine ∧ containsSub (composeBody f) warnLine = true) ∧
    ((f.pkgJsonModified && !f.pkgLockModified) = false →
      warnSection f = [] ∧ composeBody f = titleLine ++ issuesSection f ++ todoSection f) := by
  constructor
  · intro h
    have hw : warnSection f = warnLine := by simp [warnSection, h]
    refine ⟨hw, ?_⟩
    unfold composeBody
    rw [hw, List.append_assoc (titleLine ++ issuesSection f) warnLine (todoSection f)]
    exact containsSub_append_left _ _ _ (containsSub_self_append _ _)
  · intro h
    have hw : warnSection f = [] := by simp [warnSection, h]
    exact ⟨hw, by simp [composeBody, hw]⟩

/-- Witness for C6 at concrete findings on both sides of the split. -/
theorem warnSection_iff_witness :
    (warnSection ⟨[], [], true, false⟩ = warnLine ∧
      containsSub (composeBody ⟨[], [], true, false⟩) warnLine = true) ∧
    (warnSection ⟨[], [], true, true⟩ = [] ∧
      composeBody ⟨[], [], true, true⟩ =
        titleLine ++ issuesSection ⟨[], [], true, true⟩ ++ todoSection ⟨[], [], true, true⟩) :=
  ⟨(warnSection_iff _).1 (by decide), (warnSection_iff _).2 (by decide)⟩

/-! ## C4 -/

/-- C4: `countLines` counts exactly the physical lines passing the
claim's filter, and a line that is blank after trimming, or whose
trimmed form starts with one of the excluded prefixes, is never
counted. -/
theorem countLines_spec (T : List Char) :
    countLines T = ((splitNl T).filter specLocLine).length ∧
    (∀ line, trimL line = [] → countedLine line = false) ∧
    (∀ line pre,
      pre ∈ [chars "//", chars "/*", chars "*", chars "import ", chars "export "] →
      startsWithL (trimL line) pre = true → countedLine line = false) := by
  refine ⟨rfl, ?_, ?_⟩
  · intro line h
    simp [countedLine, h]
  · intro line pre hpre h
    fin_cases hpre <;> simp [countedLine, h]

/-- Witness for C4: a blank line and a trimmed comment line are not
counted. -/
theorem countLines_spec_witness :
    countedLine (chars "   ") = false ∧ countedLine (chars "  // x") = false :=
  ⟨(countLines_spec []).2.1 (chars "   ") (by decide),
   (countLines_spec []).2.2 (chars "  // x") (chars "//") (by decide) (by decide)⟩

/-! ## C9 -/

theorem filter_length_zero (p : List Char → Bool) (l : List (List Char))
    (h : l.all (fun x => !p x) = true) : (l.filter p).length = 0 := by
  induction l with
  | nil => rfl
  | cons x xs ih =>
    simp only [List.all_cons, Bool.and_eq_true, Bool.not_eq_true'] at h
    simp [List.filter_cons, h.1, ih (by simpa using h.2)]

theorem findTodosGo_nil (fuel : Nat) :
    ∀ s : List Char, noTodoMatch s = true → findTodosGo fuel s = [] := by
  induction fuel with
  | zero => intro s _; rfl
  | succ n ih =>
    intro s h
    cases s with
    | nil => rfl
    | cons c t =>
      simp only [noTodoMatch, Bool.and_eq_true] at h
      cases hm : matchTodoAt (c :: t) with
      | none => simpa [findTodosGo, hm] using ih t h.2
      | some x => rw [hm] at h; simp at h

theorem noMethodAt_fn (b : Bool) (s : List Char) (h : noMethodAt s = true) :
    fnMatchAt b s = none := by
  simp only [noMethodAt, Bool.and_eq_true, Option.isNone_iff_eq_none] at h
  cases b
  · exact h.1.1.2
  · exact h.1.1.1

theorem noMethodAt_arrow (s : List Char) (h : noMethodAt s = true) :
    arrowMatchAt s = none := by
  simp only [noMethodAt, Bool.and_eq_true, Option.isNone_iff_eq_none] at h
  exact h.1.2

theorem noMethodAt_regular (s : List Char) (h : noMethodAt s = true) :
    regularMatchAt s = none := by
  simp only [noMethodAt, Bool.and_eq_true, Option.isNone_iff_eq_none] at h
  exact h.2

theorem scanCount_zero (m : Bool → List Char → Option (List Char × List Char))
    (hm : ∀ b s, noMethodAt s = true → m b s = none) (fuel : Nat) :
    ∀ (b : Bool) (s : List Char), noMethodMatch s = true → scanCount m fuel b s = 0 := by
  induction fuel with
  | zero => intro b s _; rfl
  | succ n ih =>
    intro b s h
    cases s with
    | nil => rfl
    | cons c t =>
      simp only [noMethodMatch, Bool.and_eq_true] at h
      simp [scanCount, hm b (c :: t) h.1, ih (isNl c) t h.2]

/-- C9: the extractors are plain total functions on text, and on an
input where nothing matches they return zero counts or the empty list
rather than failing. -/
theorem extractors_total_zero (T : List Char) :
    ((splitNl T).all (fun l => !countedLine l) = true → countLines T = 0) ∧
    (noTodoMatch T = true → findTodos T = []) ∧
    (noMethodMatch T = true → countMethods T = 0) := by
  refine ⟨fun h => filter_length_zero countedLine (splitNl T) h,
    fun h => findTodosGo_nil T.length T h, fun h => ?_⟩
  have h1 := scanCount_zero fnMatchAt (fun b s hh => noMethodAt_fn b s hh) T.length true T h
  have h2 := scanCount_zero (fun _ s => arrowMatchAt s)
    (fun _ s hh => noMethodAt_arrow s hh) T.length true T h
  have h3 := scanCount_zero (fun _ s => regularMatchAt s)
    (fun _ s hh => noMethodAt_regular s hh) T.length true T h
  simp [countMethods, fnCount, arrowCount, regularCount, h1, h2, h3]

/-- Witness for C9 on a comment-only text with no matches at all. -/
theorem extractors_total_zero_witness :
    countLines (chars "// x\n  \n* y") = 0 ∧
    findTodos (chars "// x\n  \n* y") = [] ∧
    countMethods (chars "// x\n  \n* y") = 0 :=
  ⟨(extractors_total_zero (chars "// x\n  \n* y")).1 (by decide),
   (extractors_total_zero (chars "// x\n  \n* y")).2.1 (by decide),
   (extractors_total_zero (chars "// x\n  \n* y")).2.2 (by decide)⟩

/-! ## C8 -/

/-- C8: a failed content fetch for an eligible file leaves the
aggregation exactly as if that file were absent — every other file still
contributes its metrics, issues and todo entries, and the analysis never
aborts. -/
theorem analyzeFiles_skip_failed (fetch : List Char → Option (List Char))
    (xs ys : List ChangedFile) (bad : ChangedFile)
    (h1 : eligibleFile bad = true) (h2 : fetch bad.filename = none) :
    analyzeFiles fetch (xs ++ bad :: ys) = analyzeFiles fetch (xs ++ ys) := by
  simp only [eligibleFile, Bool.and_eq_true] at h1
  obtain ⟨hext, hpatch⟩ := h1
  have hstep : ∀ acc : PRFindings, processFile fetch acc bad = acc := by
    intro acc
    obtain ⟨issues, todos, pj, pl⟩ := acc
    have hne1 : (bad.filename == chars "package.json") = false := by
      cases hb : bad.filename == chars "package.json"
      · rfl
      · rw [eq_of_beq hb] at hext
        exact absurd hext (by decide)
    have hne2 : (bad.filename == chars "package-lock.json") = false := by
      cases hb : bad.filename == chars "package-lock.json"
      · rfl
      · rw [eq_of_beq hb] at hext
        exact absurd hext (by decide)
    have helig : eligibleFile bad = true := by
      simp [eligibleFile, hext, hpatch]
    simp [processFile, analyzeStep, helig, h2, hne1, hne2]
  unfold analyzeFiles
  rw [List.foldl_append, List.foldl_append, List.foldl_cons, hstep]

/-- Witness for C8: the middle of three eligible files fails to fetch
and the result is that of the remaining two. -/
theorem analyzeFiles_skip_failed_witness :
    analyzeFiles c8Fetch
        ([⟨chars "a.js", some (chars "p")⟩] ++
          (⟨chars "bad.js", some (chars "p")⟩ : ChangedFile) ::
            [⟨chars "c.ts", some (chars "p")⟩]) =
      analyzeFiles c8Fetch ([⟨chars "a.js", some (chars "p")⟩] ++
        [⟨chars "c.ts", some (chars "p")⟩]) :=
  analyzeFiles_skip_failed c8Fetch _ _ _ (by decide) (by decide)

/-! ## C5 -/

/-- C5: an analyzed file whose metrics are `loc = 250` and
`methodCount = 9` contributes exactly two issue lines, the large-file
issue first and the method-count issue second, while its todo entries go
to the separate todo list appended after both issue checks. -/
theorem processFile_issue_order (fetch : List Char → Option (List Char)) (acc : PRFindings)
    (file : ChangedFile) (content : List Char)
    (he : eligibleFile file = true) (hf : fetch file.filename = some content)
    (hloc : countLines content = 250) (hnom : countMethods content = 9) :
    (processFile fetch acc file).issues =
      acc.issues ++ [locIssue file.filename 250, nomIssue file.filename 9] ∧
    (processFile fetch acc file).todoComments =
      (if (findTodos content).isEmpty then acc.todoComments
       else acc.todoComments ++ (findTodos content).map (todoEntry file.filename)) := by
  constructor <;>
    simp [processFile, analyzeStep, he, hf, hloc, hnom, List.append_assoc]

/-- Witness for C5 on a concrete 250-line, nine-method file. -/
theorem processFile_issue_order_witness :
    (processFile (fun _ => some bigContent) emptyFindings
        ⟨chars "big.js", some (chars "p")⟩).issues =
      emptyFindings.issues ++ [locIssue (chars "big.js") 250, nomIssue (chars "big.js") 9] ∧
    (processFile (fun _ => some bigContent) emptyFindings
        ⟨chars "big.js", some (chars "p")⟩).todoComments =
      (if (findTodos bigContent).isEmpty then emptyFindings.todoComments
       else emptyFindings.todoComments ++
         (findTodos bigContent).map (todoEntry (chars "big.js"))) :=
  processFile_issue_order (fun _ => some bigContent) emptyFindings
    ⟨chars "big.js", some (chars "p")⟩ bigContent (by decide) rfl (by decide) (by decide)

/-! ## C2 -/

theorem takeWhile_all (p : Char → Bool) (l : List Char) : (l.takeWhile p).all p = true := by
  induction l with
  | nil => rfl
  | cons c t ih =>
    cases h : p c <;> simp [List.takeWhile_cons, h, ih]

theorem matchCI_sound (pat : List Char) :
    ∀ s m r, matchCI pat s = some (m, r) → s = m ++ r ∧ m.map Char.toLower = pat := by
  induction pat with
  | nil =>
    intro s m r h
    simp only [matchCI, Option.some.injEq, Prod.mk.injEq] at h
    obtain ⟨h1, h2⟩ := h
    subst h1; subst h2; simp
  | cons p ps ih =>
    intro s m r h
    cases s with
    | nil => simp [matchCI] at h
    | cons c cs =>
      simp only [matchCI] at h
      cases hc : c.toLower == p with
      | false => rw [hc] at h; simp at h
      | true =>
        rw [hc] at h
        simp only [if_true] at h
        cases hm : matchCI ps cs with
        | none => rw [hm] at h; simp at h
        | some x =>
          obtain ⟨m', r'⟩ := x
          rw [hm] at h
          simp only [Option.some.injEq, Prod.mk.injEq] at h
          obtain ⟨h1, h2⟩ := h
          obtain ⟨ha, hb⟩ := ih cs m' r' hm
          subst h1; subst h2
          refine ⟨by rw [ha]; rfl, ?_⟩
          simp [hb, eq_of_beq hc]

theorem kwMatch_sound (s kw r : List Char) (h : kwMatch s = some (kw, r)) :
    s = kw ++ r ∧ kwOk kw := by
  unfold kwMatch at h
  cases ht : matchCI (chars "todo") s with
  | some x =>
    rw [ht] at h
    simp only [Option.some.injEq] at h
    subst h
    exact ⟨(matchCI_sound _ _ _ _ ht).1, Or.inl (matchCI_sound _ _ _ _ ht).2⟩
  | none =>
    rw [ht] at h
    exact ⟨(matchCI_sound _ _ _ _ h).1, Or.inr (matchCI_sound _ _ _ _ h).2⟩

theorem todoLeader_sound (s l r : List Char) (h : todoLeader s = some (l, r)) :
    s = l ++ r ∧ leaderOk l := by
  unfold todoLeader at h
  split at h
  · simp only [Option.some.injEq, Prod.mk.injEq] at h
    obtain ⟨h1, h2⟩ := h
    subst h1; subst h2
    exact ⟨rfl, Or.inl rfl⟩
  · simp only [Option.some.injEq, Prod.mk.injEq] at h
    obtain ⟨h1, h2⟩ := h
    subst h1; subst h2
    exact ⟨rfl, Or.inr (Or.inl rfl)⟩
  · simp only [Option.some.injEq, Prod.mk.injEq] at h
    obtain ⟨h1, h2⟩ := h
    subst h1; subst h2
    exact ⟨rfl, Or.inr (Or.inr rfl)⟩
  · simp at h

theorem todoTail_sound (r : List Char) :
    r = (todoTail r).1 ++ (todoTail r).2 ∧
    ∃ w tl, (todoTail r).1 = w ++ tl ∧ w.all isWs = true ∧ tl.all isDot = true := by
  refine ⟨?_, r.takeWhile isWs, (r.dropWhile isWs).takeWhile isDot, rfl,
    takeWhile_all _ _, takeWhile_all _ _⟩
  unfold todoTail
  rw [List.append_assoc, List.takeWhile_append_dropWhile, List.takeWhile_append_dropWhile]

theorem matchTodoAt_sound (s m r : List Char) (h : matchTodoAt s = some (m, r)) :
    s = m ++ r ∧ TodoFrag m ∧ m ≠ [] := by
  unfold matchTodoAt at h
  cases hl : todoLeader s with
  | none => rw [hl] at h; simp at h
  | some lr =>
    obtain ⟨l, r1⟩ := lr
    rw [hl] at h
    simp only [] at h
    obtain ⟨hs1, hlv⟩ := todoLeader_sound s l r1 hl
    have hlne : l ≠ [] := by
      rcases hlv with h' | h' | h' <;> subst h' <;> decide
    cases hk : kwMatch (r1.dropWhile isWs) with
    | none => rw [hk] at h; simp at h
    | some kwr =>
      obtain ⟨kw, r3⟩ := kwr
      rw [hk] at h
      simp only [] at h
      obtain ⟨hk1, hk2⟩ := kwMatch_sound _ _ _ hk
      have hr1 : r1 = r1.takeWhile isWs ++ (kw ++ r3) := by
        rw [← hk1, List.takeWhile_append_dropWhile]
      split at h
      · rename_i r4
        simp only [Option.some.injEq, Prod.mk.injEq] at h
        obtain ⟨hm, hr⟩ := h
        obtain ⟨ht1, w, tl, ht2, hw, htl⟩ := todoTail_sound r4
        refine ⟨?_, ?_, ?_⟩
        · rw [hs1, hr1, ← hm, ← hr]
          simp only [List.append_assoc, List.cons_append, List.singleton_append]
          simp [← ht1]
        · refine ⟨l, r1.takeWhile isWs, kw, [':'], w, tl, ?_, hlv,
            takeWhile_all _ _, hk2, Or.inr rfl, hw, htl⟩
          rw [← hm, ht2]
          simp [List.append_assoc]
        · rw [← hm]
          simp [hlne]
      · simp only [Option.some.injEq, Prod.mk.injEq] at h
        obtain ⟨hm, hr⟩ := h
        obtain ⟨ht1, w, tl, ht2, hw, htl⟩ := todoTail_sound r3
        refine ⟨?_, ?_, ?_⟩
        · rw [hs1, hr1, ← hm, ← hr]
          simp only [List.append_assoc, List.cons_append, List.singleton_append]
          simp [← ht1]
        · refine ⟨l, r1.takeWhile isWs, kw, [], w, tl, ?_, hlv,
            takeWhile_all _ _, hk2, Or.inl rfl, hw, htl⟩
          rw [← hm, ht2]
          simp [List.append_assoc]
        · rw [← hm]
          simp [hlne]

theorem findTodosPosGo_le (fuel : Nat) :
    ∀ (off : Nat) (s : List Char) (q : Nat × List Char),
      q ∈ findTodosPosGo fuel off s → off ≤ q.1 := by
  induction fuel with
  | zero => intro off s q h; simp [findTodosPosGo] at h
  | succ n ih =>
    intro off s q hq
    cases s with
    | nil => simp [findTodosPosGo] at hq
    | cons c t =>
      cases hm : matchTodoAt (c :: t) with
      | some x =>
        obtain ⟨m, rest⟩ := x
        simp only [findTodosPosGo, hm] at hq
        rcases List.mem_cons.mp hq with h1 | h1
        · rw [h1]
        · exact le_trans (Nat.le_add_right off m.length) (ih _ _ _ h1)
      | none =>
        simp only [findTodosPosGo, hm] at hq
        exact le_trans (Nat.le_succ off) (ih _ _ _ hq)

theorem findTodosPosGo_snd (fuel : Nat) :
    ∀ (off : Nat) (s : List Char),
      (findTodosPosGo fuel off s).map Prod.snd = findTodosGo fuel s := by
  induction fuel with
  | zero => intro off s; rfl
  | succ n ih =>
    intro off s
    cases s with
    | nil => rfl
    | cons c t =>
      cases hm : matchTodoAt (c :: t) with
      | some x =>
        obtain ⟨m, rest⟩ := x
        simp [findTodosPosGo, findTodosGo, hm, ih]
      | none =>
        simp [findTodosPosGo, findTodosGo, hm, ih]

theorem findTodosPosGo_pairwise (fuel : Nat) :
    ∀ (off : Nat) (s : List Char),
      List.Pairwise (fun a b => a.1 < b.1) (findTodosPosGo fuel off s) := by
  induction fuel with
  | zero => intro off s; simp [findTodosPosGo]
  | succ n ih =>
    intro off s
    cases s with
    | nil => simp [findTodosPosGo]
    | cons c t =>
      cases hm : matchTodoAt (c :: t) with
      | some x =>
        obtain ⟨m, rest⟩ := x
        simp only [findTodosPosGo, hm]
        rw [List.pairwise_cons]
        refine ⟨fun q hq => ?_, ih _ _⟩
        have h1 := findTodosPosGo_le n (off + m.length) rest q hq
        have h2 : 0 < m.length :=
          List.length_pos.mpr (matchTodoAt_sound _ _ _ hm).2.2
        omega
      | none =>
        simp only [findTodosPosGo, hm]
        exact ih _ _

theorem findTodosGo_sound (fuel : Nat) :
    ∀ (s f : List Char), f ∈ findTodosGo fuel s →
      ∃ raw, containsSub s raw = true ∧ TodoFrag raw ∧ f = trimL raw := by
  induction fuel with
  | zero => intro s f h; simp [findTodosGo] at h
  | succ n ih =>
    intro s f hf
    cases s with
    | nil => simp [findTodosGo] at hf
    | cons c t =>
      cases hm : matchTodoAt (c :: t) with
      | some x =>
        obtain ⟨m, rest⟩ := x
        simp only [findTodosGo, hm] at hf
        obtain ⟨hs, hfrag, _⟩ := matchTodoAt_sound _ _ _ hm
        rcases List.mem_cons.mp hf with h1 | h1
        · exact ⟨m, by rw [hs]; exact containsSub_self_append m rest, hfrag, h1⟩
        · obtain ⟨raw, hc, hfr, he⟩ := ih rest f h1
          exact ⟨raw, by rw [hs]; exact containsSub_append_left m rest raw hc, hfr, he⟩
      | none =>
        simp only [findTodosGo, hm] at hf
        obtain ⟨raw, hc, hfr, he⟩ := ih t f hf
        exact ⟨raw, containsSub_cons c t raw hc, hfr, he⟩

/-- C2: every fragment returned by `findTodos` is the trim of a
contiguous piece of the text shaped as leader, whitespace,
case-insensitive `TODO`/`FIXME`, optional colon and trailing text; the
fragments are listed in strictly increasing order of the first character
offset of each match; duplicates are kept and case does not affect
matching. -/
theorem findTodos_characterization (T : List Char) :
    findTodos T = (findTodosPos T).map Prod.snd ∧
    List.Pairwise (fun a b => a.1 < b.1) (findTodosPos T) ∧
    (∀ f, f ∈ findTodos T → ∃ raw, containsSub T raw = true ∧ TodoFrag raw ∧ f = trimL raw) ∧
    findTodos (chars "# TODO: x\n# TODO: x") = [chars "# TODO: x", chars "# TODO: x"] ∧
    findTodos (chars "// FiXmE stuff") = [chars "// FiXmE stuff"] :=
  ⟨(findTodosPosGo_snd T.length 0 T).symm, findTodosPosGo_pairwise T.length 0 T,
   fun f hf => findTodosGo_sound T.length T f hf, by decide, by decide⟩

/-- Witness for C2: the fragment returned on a concrete text is the trim
of a pattern-shaped piece of it. -/
theorem findTodos_characterization_witness :
    ∃ raw, containsSub (chars "* fixme later") raw = true ∧ TodoFrag raw ∧
      chars "* fixme later" = trimL raw :=
  (findTodos_characterization (chars "* fixme later")).2.2.1
    (chars "* fixme later") (by decide)
